import Mathlib

/-!
Shallow embedding of the servicenow-pdf-generator pipeline.

The Python source is embedded as executable Lean definitions:
* `src/models.py`   → `Asset`, `TicketRow` (plus `ColumnValue`, `ItemRec` for the
  raw GraphQL item shape consumed by `main.py`);
* `src/files.py`    → `sanitize_filename`, `download_asset`, `dedupe_assets`
  (the filesystem is an explicit list of existing paths; the HTTP GET and the
  file write are an oracle boolean `netOk`);
* `src/main.py`     → `filterLoop` (the client-side month/status/attachment
  filter, lines 100-124), `addRef`/`buildIndex` (the `attachment_map`
  construction, lines 126-153), `processOne`/`processAssets` (the
  download-and-convert loop over unique attachments, lines 173-195), and
  `runMain` (the dry-run versus full-run control flow);
* `src/convert.py`  → `chooseStrategy`, `to_pdf` (the conversion dispatcher;
  whether the chosen external strategy raises is an oracle boolean);
* `src/monday_client.py` → `runRetry`/`graphqlCalls` (the tenacity retry
  wrapper: stop_after_attempt(5), wait_exponential, retry only on
  httpx.HTTPStatusError; each attempt outcome is given by an oracle).
-/

/-- Asset record (src/models.py lines 4-10). -/
structure Asset where
  id : String
  name : String
  file_extension : String
  public_url : Option String := none
  url : Option String := none
  size : Option Nat := none
  deriving DecidableEq, Repr

/-- One entry of an item's `column_values` list as returned by the GraphQL
queries (src/queries.py): a column id and an optional text. -/
structure ColumnValue where
  id : String
  text : Option String
  deriving DecidableEq, Repr

/-- Raw item shape consumed by main.py: id, name, column_values, assets. -/
structure ItemRec where
  id : String
  name : String
  column_values : List ColumnValue
  assets : List Asset
  deriving DecidableEq, Repr

/-- TicketRow record (src/models.py lines 12-17). -/
structure TicketRow where
  item_id : String
  item_name : String
  open_date : String
  close_date : Option String
  attachments : List Asset
  deriving DecidableEq, Repr

/-- The three column ids read from the config (`config['board']['columns']`). -/
structure BoardCols where
  status : String
  date_filter : String
  close_date : String
  deriving DecidableEq, Repr

/-- sanitize_filename (src/files.py lines 7-8): keep alphanumerics, `-` and
`_`, replace every other character by `_`.  Python's `str.isalnum` is embedded
as `Char.isAlphanum`. -/
def sanitize_filename (name : String) : String :=
  ⟨name.data.map (fun c => if c.isAlphanum || c = '-' || c = '_' then c else '_')⟩

/-- The download file name `f"{asset.id}-{sanitize_filename(asset.name)}.{asset.file_extension}"`
(src/files.py line 11). -/
def destFilename (asset : Asset) : String :=
  asset.id ++ "-" ++ sanitize_filename asset.name ++ "." ++ asset.file_extension

/-- The download destination `Path(out_dir) / filename` (src/files.py line 12). -/
def destPath (asset : Asset) (out_dir : String) : String :=
  out_dir ++ "/" ++ destFilename asset

/-- download_asset (src/files.py lines 10-24).  The filesystem `fs` is the
list of existing paths; `netOk` tells whether the HTTP GET plus the file write
succeed.  Result: the returned optional path, the filesystem afterwards, and
the number of network requests issued (0 or 1). -/
def download_asset (asset : Asset) (out_dir : String) (netOk : Bool)
    (fs : List String) : Option String × List String × Nat :=
  let path := destPath asset out_dir
  if path ∈ fs then (some path, fs, 0)
  else if netOk then (some path, path :: fs, 1)
  else (none, fs, 1)

/-- Recursion for dedupe_assets (src/files.py lines 26-34): `seen` collects
`(asset.id, asset.name)` keys already kept. -/
def dedupeGo (seen : List (String × String)) : List Asset → List Asset
  | [] => []
  | a :: rest =>
    if (a.id, a.name) ∈ seen then dedupeGo seen rest
    else a :: dedupeGo ((a.id, a.name) :: seen) rest

/-- dedupe_assets (src/files.py lines 26-34): drop intra-item duplicates by
`(id, name)`, keeping first occurrences in order. -/
def dedupe_assets (assets : List Asset) : List Asset :=
  dedupeGo [] assets

/-- One entry of `attachment_map` (src/main.py line 127): the dict key
(attachment name), the canonical Asset stored at first sight, and the ordered
list of referencing ticket names. -/
structure IndexEntry where
  name : String
  canonical : Asset
  refs : List String
  deriving DecidableEq, Repr

/-- Registering one asset reference in `attachment_map` (src/main.py lines
141-145): if the name is unseen, append a new entry whose canonical asset is
this one; in either case append the item name to the entry's reference list.
The association list keeps Python dict insertion order. -/
def addRef (itemName : String) (a : Asset) : List IndexEntry → List IndexEntry
  | [] => [⟨a.name, a, [itemName]⟩]
  | e :: rest =>
    if e.name = a.name then { e with refs := e.refs ++ [itemName] } :: rest
    else e :: addRef itemName a rest

/-- Processing one filtered item into `attachment_map` (src/main.py lines
129-145): its assets are first deduplicated intra-item, then each is
registered. -/
def addItemAssets (m : List IndexEntry) (it : ItemRec) : List IndexEntry :=
  (dedupe_assets it.assets).foldl (fun m a => addRef it.name a m) m

/-- The full `attachment_map` built over the filtered items (src/main.py
lines 126-153). -/
def buildIndex (items : List ItemRec) : List IndexEntry :=
  items.foldl addItemAssets []

/-- The keys of the attachment index, in insertion order. -/
def indexKeys (m : List IndexEntry) : List String :=
  m.map IndexEntry.name

/-- Sum of reference-list lengths over the index. -/
def sumRefs (m : List IndexEntry) : Nat :=
  (m.map (fun e => e.refs.length)).sum

/-- All attachment names contributed to the index: per item, the names of its
intra-item-deduplicated assets, concatenated in item order. -/
def allRefNames (items : List ItemRec) : List String :=
  (items.map (fun it => (dedupe_assets it.assets).map Asset.name)).flatten

/-- The `unique_attachments` list (src/main.py line 175): the canonical asset
of every index entry, in index order. -/
def unique_attachments (m : List IndexEntry) : List Asset :=
  m.map IndexEntry.canonical

/-- The column-value scan of src/main.py lines 103-109: both assignments run
for every cv whose id matches, the last match winning, and the stored value is
`cv.get('text')` which may be None. -/
def extractStatusDate (cols : BoardCols) (cvs : List ColumnValue) :
    Option String × Option String :=
  cvs.foldl
    (fun acc cv =>
      (if cv.id = cols.status then cv.text else acc.1,
       if cv.id = cols.date_filter then cv.text else acc.2))
    (none, none)

/-- Python truthiness of an optional string: None and the empty string are
falsy. -/
def truthy : Option String → Bool
  | none => false
  | some s => !s.data.isEmpty

/-- Python `str.lower`, embedded character-list-wise. -/
def lowerStr (s : String) : String :=
  ⟨s.data.map Char.toLower⟩

/-- Python `pat in hay` on strings: contiguous-substring containment, embedded
character-list-wise. -/
def strContains (hay pat : String) : Bool :=
  decide (List.IsInfix pat.data hay.data)

/-- Python truthiness of the optional `max_items` config value: None and 0 are
falsy. -/
def optTruthyNat : Option Nat → Bool
  | none => false
  | some n => n != 0

/-- The item predicate applied by the client-side filter of src/main.py lines
111-117: status label truthy and case-insensitively equal to the required
label, date text truthy and containing the month as a substring, and at least
one attachment. -/
def itemPasses (cols : BoardCols) (month req : String) (it : ItemRec) : Bool :=
  let sd := extractStatusDate cols it.column_values
  if truthy sd.1 && lowerStr (sd.1.getD "") == lowerStr req then
    if truthy sd.2 && strContains (sd.2.getD "") month then
      decide (0 < it.assets.length)
    else false
  else false

/-- The client-side filter loop of src/main.py lines 100-124, including the
`break` that fires only in dry-run mode when a truthy `max_items` is reached. -/
def filterLoop (dryRun : Bool) (maxItems : Option Nat) (cols : BoardCols)
    (month req : String) (acc : List ItemRec) : List ItemRec → List ItemRec
  | [] => acc
  | it :: rest =>
    let sd := extractStatusDate cols it.column_values
    if truthy sd.1 && lowerStr (sd.1.getD "") == lowerStr req then
      if truthy sd.2 && strContains (sd.2.getD "") month then
        let acc2 := if 0 < it.assets.length then acc ++ [it] else acc
        if dryRun && optTruthyNat maxItems && maxItems.getD 0 ≤ acc2.length then acc2
        else filterLoop dryRun maxItems cols month req acc2 rest
      else filterLoop dryRun maxItems cols month req acc rest
    else filterLoop dryRun maxItems cols month req acc rest

/-- `filtered_items` (src/main.py lines 101-124). -/
def filtered_items (dryRun : Bool) (maxItems : Option Nat) (cols : BoardCols)
    (month req : String) (items : List ItemRec) : List ItemRec :=
  filterLoop dryRun maxItems cols month req [] items

/-- The open/close-date scan of src/main.py lines 132-138. -/
def extractOpenClose (cols : BoardCols) (cvs : List ColumnValue) :
    Option String × Option String :=
  cvs.foldl
    (fun acc cv =>
      (if cv.id = cols.date_filter then cv.text else acc.1,
       if cv.id = cols.close_date then cv.text else acc.2))
    (none, none)

/-- The `ticket_rows` construction of src/main.py lines 126-153: one TicketRow
per filtered item, attachments already intra-item deduplicated, open date
defaulted to the empty string. -/
def ticket_rows (cols : BoardCols) (items : List ItemRec) : List TicketRow :=
  items.map (fun it =>
    let oc := extractOpenClose cols it.column_values
    { item_id := it.id
      item_name := it.name
      open_date := oc.1.getD ""
      close_date := oc.2
      attachments := dedupe_assets it.assets })

/-- Python `os.path.basename` for the paths this program builds: the part
after the last `/`. -/
def basenameStr (s : String) : String :=
  ⟨(s.data.reverse.takeWhile (fun c => c != '/')).reverse⟩

/-- The root part of Python `os.path.splitext`: split at the last dot provided
some non-dot character precedes it; otherwise return the whole name. -/
def splitextStem (s : String) : String :=
  let cs := s.data
  let afterDot := (cs.reverse.takeWhile (fun c => c != '.')).length
  if afterDot = cs.length then s
  else
    let stem := cs.take (cs.length - afterDot - 1)
    if stem.any (fun c => c != '.') then ⟨stem⟩ else s

/-- `ext.lower().lstrip('.')` (src/convert.py line 29). -/
def normExt (ext : String) : String :=
  ⟨(lowerStr ext).data.dropWhile (fun c => c == '.')⟩

/-- The conversion strategies of src/convert.py: identity copy, headless
LibreOffice, img2pdf, wkhtmltopdf, or the synthesized placeholder for
unsupported types. -/
inductive ConvStrategy
  | copy
  | libre
  | image
  | markup
  | unsupportedArm
  deriving DecidableEq, Repr

/-- The if/elif dispatch of src/convert.py lines 32-45. -/
def chooseStrategy (e : String) (prefer_libreoffice html_enabled : Bool) :
    ConvStrategy :=
  if e = "pdf" then .copy
  else if (e = "docx" ∨ e = "xlsx" ∨ e = "pptx" ∨ e = "csv" ∨ e = "txt")
      ∧ prefer_libreoffice then .libre
  else if e = "png" ∨ e = "jpg" ∨ e = "jpeg" ∨ e = "webp" then .image
  else if e = "html" ∧ html_enabled then .markup
  else .unsupportedArm

/-- Outcome of the dispatcher: no input, a really converted document, or a
synthesized placeholder page carrying its message text. -/
inductive ConvOut
  | noInput
  | real (path : String)
  | placeholder (path : String) (msg : String)
  deriving DecidableEq, Repr

/-- The path the dispatcher returns, when it returns one. -/
def ConvOut.pathOf : ConvOut → Option String
  | .noInput => none
  | .real p => some p
  | .placeholder p _ => some p

/-- to_pdf (src/convert.py lines 24-54).  `stratFails` tells whether the
chosen external strategy raises (process failure, timeout, missing tool); the
catch-all then writes the failure placeholder.  Every non-noInput outcome
writes `path_pdf` into the filesystem. -/
def to_pdf (stratFails : Bool) (path_in : Option String) (ext out_dir : String)
    (prefer_libreoffice html_enabled : Bool) (fs : List String) :
    ConvOut × List String :=
  match path_in with
  | none => (.noInput, fs)
  | some p =>
    if p = "" ∨ p ∉ fs then (.noInput, fs)
    else
      let path_pdf := out_dir ++ "/" ++ splitextStem (basenameStr p) ++ ".pdf"
      match chooseStrategy (normExt ext) prefer_libreoffice html_enabled with
      | .unsupportedArm =>
        (.placeholder path_pdf
          (basenameStr p ++ ": unsupported type; included as placeholder."),
         path_pdf :: fs)
      | _ =>
        if stratFails then
          (.placeholder path_pdf
            (basenameStr p ++ ": conversion failed; included as placeholder."),
           path_pdf :: fs)
        else (.real path_pdf, path_pdf :: fs)

/-- Whether to_pdf's line-25 guard rejects the input: a falsy path or a path
that does not exist. -/
def toPdfMissing (path_in : Option String) (fs : List String) : Bool :=
  match path_in with
  | none => true
  | some p => decide (p = "" ∨ p ∉ fs)

/-- Outcome of one httpx POST inside `MondayClient.graphql`
(src/monday_client.py lines 19-26): success, an HTTP status error raised by
`raise_for_status` (the only exception type tenacity retries), or a structurally
successful response carrying an `errors` field (a plain Exception, not
retried). -/
inductive GqlOutcome
  | ok
  | httpStatusError
  | errorsField
  deriving DecidableEq, Repr

/-- Result of the retry-wrapped call: success, an immediately propagated
non-retryable exception, or the last transient error re-raised after the
attempt budget is exhausted. -/
inductive GqlResult
  | success
  | fatal
  | exhausted
  deriving DecidableEq, Repr

/-- Sleep before retry number `attempt + 1` modelled from tenacity
`wait_exponential()` defaults (multiplier 1, base 2). -/
def backoffWait (attempt : Nat) : Nat :=
  2 ^ attempt

/-- The tenacity driver of src/monday_client.py line 19:
`stop_after_attempt(5)` with `retry_if_exception_type(httpx.HTTPStatusError)`.
`f k` is the outcome of 0-indexed attempt `k`; the result is the number of
attempts made, the backoff waits slept between them, and the final outcome. -/
def runRetry (f : Nat → GqlOutcome) (k : Nat) : Nat → Nat × List Nat × GqlResult
  | 0 => (0, [], .exhausted)
  | fuel + 1 =>
    match f k with
    | .ok => (1, [], .success)
    | .errorsField => (1, [], .fatal)
    | .httpStatusError =>
      if fuel = 0 then (1, [], .exhausted)
      else
        let r := runRetry f (k + 1) fuel
        (r.1 + 1, backoffWait k :: r.2.1, r.2.2)

/-- Number of POST attempts one `graphql` call makes, given the per-attempt
outcomes. -/
def graphqlCalls (f : Nat → GqlOutcome) : Nat :=
  (runRetry f 0 5).1

/-- The backoff waits slept between attempts. -/
def graphqlWaits (f : Nat → GqlOutcome) : List Nat :=
  (runRetry f 0 5).2.1

/-- The final outcome of one retry-wrapped `graphql` call. -/
def graphqlResult (f : Nat → GqlOutcome) : GqlResult :=
  (runRetry f 0 5).2.2

/-- The `first_ticket` lookup of src/main.py line 181:
`[t for t in ticket_rows if any(a.name == asset.name for a in t.attachments)][0]`,
as an optional find (Python raises IndexError when the list is empty). -/
def firstTicketFor (rows : List TicketRow) (a : Asset) : Option TicketRow :=
  rows.find? (fun t => t.attachments.any (fun b => b.name == a.name))

/-- State threaded through the download-and-convert loop: the pdf paths
collected into `item_pdfs`, the filesystem, and counters for network requests
and to_pdf invocations. -/
structure PState where
  pdfs : List String
  fs : List String
  netReqs : Nat
  convCalls : Nat
  deriving DecidableEq, Repr

/-- One iteration of the unique-attachment loop (src/main.py lines 179-195):
find the first referencing ticket (None embeds Python's IndexError, which
would abort the run), download, convert when the download succeeded, and
append the pdf path when the dispatcher returned an existing path. -/
def processOne (rows : List TicketRow) (downloadsDir month : String)
    (netOk stratFails : Asset → Bool) (st : PState) (a : Asset) :
    Option PState :=
  match firstTicketFor rows a with
  | none => none
  | some t =>
    let item_dir := downloadsDir ++ "/" ++ month ++ "/" ++ t.item_id
    let converted_dir := item_dir ++ "/" ++ "converted"
    let dl := download_asset a item_dir (netOk a) st.fs
    match dl.1 with
    | none => some { st with fs := dl.2.1, netReqs := st.netReqs + dl.2.2 }
    | some fp =>
      let conv := to_pdf (stratFails a) (some fp) a.file_extension converted_dir
        true false dl.2.1
      let st2 : PState :=
        { st with fs := conv.2, netReqs := st.netReqs + dl.2.2,
                  convCalls := st.convCalls + 1 }
      match conv.1.pathOf with
      | some q => if q ∈ conv.2 then some { st2 with pdfs := st2.pdfs ++ [q] }
                  else some st2
      | none => some st2

/-- The whole unique-attachment loop (src/main.py lines 173-195). -/
def processAssets (rows : List TicketRow) (downloadsDir month : String)
    (netOk stratFails : Asset → Bool) : List Asset → PState → Option PState
  | [], st => some st
  | a :: rest, st =>
    match processOne rows downloadsDir month netOk stratFails st a with
    | none => none
    | some st2 => processAssets rows downloadsDir month netOk stratFails rest st2

/-- The three report files the non-dry run writes (src/main.py lines 198, 208
and src/excel_utils.py naming). -/
def outputFiles (outDir month : String) : List String :=
  [outDir ++ "/" ++ month ++ "-summary.pdf",
   outDir ++ "/" ++ month ++ "-Resolved-Tickets.pdf",
   outDir ++ "/" ++ month ++ "-Resolved-Tickets-Summary.xlsx"]

/-- Observable outcome of one `main` run. -/
structure RunResult where
  filtered : List ItemRec
  index : List IndexEntry
  downloadsAttempted : Nat
  conversionsCalled : Nat
  filesWritten : List String
  verified : Bool
  deriving DecidableEq, Repr

/-- The control flow of `main` (src/main.py lines 71-250) after pagination:
filter, build `attachment_map`; in dry-run mode print decisions, run the
verification pass and return before any download, conversion or file write;
otherwise run the unique-attachment loop, write the summary, merged and Excel
outputs, and verify. -/
def runMain (dryRun : Bool) (maxItems : Option Nat) (cols : BoardCols)
    (month req outDir downloadsDir : String) (netOk stratFails : Asset → Bool)
    (items : List ItemRec) : Option RunResult :=
  let filtered := filtered_items dryRun maxItems cols month req items
  let index := buildIndex filtered
  let rows := ticket_rows cols filtered
  if dryRun then
    some { filtered := filtered, index := index, downloadsAttempted := 0,
           conversionsCalled := 0, filesWritten := [], verified := true }
  else
    match processAssets rows downloadsDir month netOk stratFails
        (unique_attachments index) ⟨[], [], 0, 0⟩ with
    | none => none
    | some stF =>
      some { filtered := filtered, index := index,
             downloadsAttempted := (unique_attachments index).length,
             conversionsCalled := stF.convCalls,
             filesWritten := stF.fs ++ outputFiles outDir month,
             verified := true }

/-- Test fixture: the shared attachment of the spec's section-8 scenario. -/
def exReport : Asset := ⟨"a1", "report.pdf", "pdf", none, none, none⟩

/-- Test fixture: the attachment referenced only by item B. -/
def exPhoto : Asset := ⟨"a2", "photo.jpg", "jpg", none, none, none⟩

/-- Test fixture: the column ids of src/queries.py. -/
def exCols : BoardCols := ⟨"status95", "date_mkt2sps1", "date_mktr60pn"⟩

/-- Test fixture: item A, resolved in 2024-06, referencing report.pdf. -/
def exItemA : ItemRec :=
  ⟨"1", "A", [⟨"status95", some "Resolved"⟩, ⟨"date_mkt2sps1", some "2024-06-03"⟩],
   [exReport]⟩

/-- Test fixture: item B, resolved in 2024-06, referencing photo.jpg. -/
def exItemB : ItemRec :=
  ⟨"2", "B", [⟨"status95", some "Resolved"⟩, ⟨"date_mkt2sps1", some "2024-06-10"⟩],
   [exPhoto]⟩

/-- Test fixture: item C, resolved in 2024-06, also referencing report.pdf. -/
def exItemC : ItemRec :=
  ⟨"3", "C", [⟨"status95", some "Resolved"⟩, ⟨"date_mkt2sps1", some "2024-06-21"⟩],
   [exReport]⟩

/-- Test fixture: the three items of the spec's section-8 scenario. -/
def exItems : List ItemRec := [exItemA, exItemB, exItemC]

/-- Test fixture: the ticket rows built over the scenario items. -/
def exRows : List TicketRow := ticket_rows exCols exItems

/-- Test fixture: the attachment index built over the scenario items. -/
def exIndex : List IndexEntry := buildIndex exItems

example : sanitize_filename "a b/c.txt" = "a_b_c_txt" := by decide

example :
    dedupe_assets [⟨"1", "a", "txt", none, none, none⟩,
      ⟨"1", "a", "txt", none, none, none⟩, ⟨"2", "a", "txt", none, none, none⟩] =
    [⟨"1", "a", "txt", none, none, none⟩, ⟨"2", "a", "txt", none, none, none⟩] := by
  decide

example : splitextStem "a.tar.gz" = "a.tar" := by decide
example : splitextStem ".bashrc" = ".bashrc" := by decide
example : basenameStr "d/e/f.txt" = "f.txt" := by decide
example : normExt ".TXT" = "txt" := by decide
example : strContains "2024-06-15" "2024-06" = true := by decide
example : graphqlCalls (fun _ => .httpStatusError) = 5 := by decide
example : graphqlCalls (fun _ => .errorsField) = 1 := by decide
example : graphqlWaits (fun _ => .httpStatusError) = [1, 2, 4, 8] := by decide

example : indexKeys exIndex = ["report.pdf", "photo.jpg"] := by decide
example : sumRefs exIndex = 3 := by decide
example : (buildIndex exItems).length = 2 := by decide
example : filtered_items false none exCols "2024-06" "resolved" exItems = exItems := by decide

/-- C10 helper: the data of the sanitized name is the character-wise map. -/
theorem sanitize_filename_data (s : String) :
    (sanitize_filename s).data =
      s.data.map (fun c => if c.isAlphanum || c = '-' || c = '_' then c else '_') := rfl

/-- C10: for every input string, `sanitize_filename` returns a string of the
same length in which every character is alphanumeric, `-` or `_` (all other
characters are replaced by `_`); in particular the sanitized part of the
download filename contains no path separator. -/
theorem spec_C10 (s : String) :
    (sanitize_filename s).length = s.length
    ∧ (sanitize_filename s).data =
        s.data.map (fun c => if c.isAlphanum || c = '-' || c = '_' then c else '_')
    ∧ (∀ c ∈ (sanitize_filename s).data, (c.isAlphanum || c = '-' || c = '_') = true)
    ∧ '/' ∉ (sanitize_filename s).data := by
  have hall : ∀ c ∈ (sanitize_filename s).data,
      (c.isAlphanum || c = '-' || c = '_') = true := by
    intro c hc
    rw [sanitize_filename_data, List.mem_map] at hc
    obtain ⟨a, _, rfl⟩ := hc
    by_cases h : (a.isAlphanum || a = '-' || a = '_') = true
    · rw [if_pos h]; exact h
    · rw [if_neg h]; decide
  refine ⟨?_, sanitize_filename_data s, hall, ?_⟩
  · show (sanitize_filename s).data.length = s.data.length
    rw [sanitize_filename_data, List.length_map]
  · intro hmem
    exact absurd (hall _ hmem) (by decide)

/-- C10 witness: a display name with a space and a slash is fully sanitized. -/
theorem spec_C10_witness :
    '/' ∉ (sanitize_filename "a/b.txt").data
    ∧ (sanitize_filename "a/b.txt").length = 7 := by
  refine ⟨(spec_C10 "a/b.txt").2.2.2, ?_⟩
  rw [(spec_C10 "a/b.txt").1]
  decide

/-- C7: download_asset is idempotent: when the destination path derived from
the asset's id, sanitized name and extension already exists, it performs no
network request and no write, and returns that existing path. -/
theorem spec_C7 (a : Asset) (d : String) (netOk : Bool) (fs : List String)
    (h : destPath a d ∈ fs) :
    download_asset a d netOk fs = (some (destPath a d), fs, 0) := by
  simp [download_asset, h]

/-- C7 witness: a concrete already-downloaded asset is returned as-is with
zero network requests. -/
theorem spec_C7_witness :
    download_asset ⟨"7", "r p", "txt", none, none, none⟩ "dl" true ["dl/7-r_p.txt"]
      = (some "dl/7-r_p.txt", ["dl/7-r_p.txt"], 0) := by
  have hd : destPath ⟨"7", "r p", "txt", none, none, none⟩ "dl" = "dl/7-r_p.txt" := by
    decide
  have h := spec_C7 ⟨"7", "r p", "txt", none, none, none⟩ "dl" true ["dl/7-r_p.txt"]
    (by rw [hd]; exact List.mem_singleton.mpr rfl)
  rw [hd] at h
  exact h

/-- C4 helper: with dry-run off, the client-side filter loop is
accumulator-passing `List.filter`. -/
theorem filterLoop_false_eq (mx : Option Nat) (cols : BoardCols) (month req : String) :
    ∀ (l : List ItemRec) (acc : List ItemRec),
      filterLoop false mx cols month req acc l
        = acc ++ l.filter (itemPasses cols month req) := by
  intro l
  induction l with
  | nil => intro acc; simp [filterLoop]
  | cons it rest ih =>
    intro acc
    simp only [filterLoop, List.filter_cons, Bool.false_and, Bool.if_false_left]
    by_cases h1 : (truthy (extractStatusDate cols it.column_values).1
        && lowerStr ((extractStatusDate cols it.column_values).1.getD "")
          == lowerStr req) = true
    · by_cases h2 : (truthy (extractStatusDate cols it.column_values).2
          && strContains ((extractStatusDate cols it.column_values).2.getD "") month) = true
      · by_cases h3 : 0 < it.assets.length
        · simp [h1, h2, h3, itemPasses, ih, List.append_assoc]
        · simp [h1, h2, h3, itemPasses, ih]
      · simp [h1, h2, itemPasses, ih]
    · simp [h1, itemPasses, ih]

/-- C4: for every list of items, month and required label, the production
(non-dry-run) item filter returns exactly the order-preserving subsequence of
items whose status label matches case-insensitively, whose date text contains
the month as a substring, and which have at least one attachment. -/
theorem spec_C4 (maxItems : Option Nat) (cols : BoardCols) (month req : String)
    (items : List ItemRec) :
    filtered_items false maxItems cols month req items
        = items.filter (itemPasses cols month req)
    ∧ List.Sublist (items.filter (itemPasses cols month req)) items := by
  refine ⟨?_, List.filter_sublist items⟩
  simpa [filtered_items] using filterLoop_false_eq maxItems cols month req items []

/-- to_pdf helper: on an existing, non-empty input path the dispatcher always
returns the derived output path and writes it into the filesystem, whatever
the chosen strategy does. -/
theorem to_pdf_emits (sf : Bool) (p ext od : String) (pl he : Bool)
    (fs : List String) (hp : p ≠ "") (hmem : p ∈ fs) :
    (to_pdf sf (some p) ext od pl he fs).1.pathOf
        = some (od ++ "/" ++ splitextStem (basenameStr p) ++ ".pdf")
    ∧ (to_pdf sf (some p) ext od pl he fs).2
        = (od ++ "/" ++ splitextStem (basenameStr p) ++ ".pdf") :: fs := by
  have hcond : ¬(p = "" ∨ p ∉ fs) := by
    push_neg
    exact ⟨hp, hmem⟩
  simp only [to_pdf]
  rw [if_neg hcond]
  cases chooseStrategy (normExt ext) pl he <;> by_cases hsf : sf <;>
    simp [hsf, ConvOut.pathOf]

/-- C3: the conversion dispatcher never raises: it returns no document exactly
when the input path is falsy or the file does not exist; otherwise it always
returns a path to a document written into the filesystem; and whenever the
chosen real strategy fails, the returned document is the one-page placeholder
naming the file and stating conversion failed. -/
theorem spec_C3 (sf : Bool) (path_in : Option String) (ext od : String)
    (pl he : Bool) (fs : List String) :
    ((to_pdf sf path_in ext od pl he fs).1 = .noInput
        ↔ toPdfMissing path_in fs = true)
    ∧ (toPdfMissing path_in fs = false →
        ∃ q, (to_pdf sf path_in ext od pl he fs).1.pathOf = some q
          ∧ q ∈ (to_pdf sf path_in ext od pl he fs).2)
    ∧ (∀ p, path_in = some p → toPdfMissing path_in fs = false → sf = true →
        chooseStrategy (normExt ext) pl he ≠ .unsupportedArm →
        (to_pdf sf path_in ext od pl he fs).1 =
          .placeholder (od ++ "/" ++ splitextStem (basenameStr p) ++ ".pdf")
            (basenameStr p ++ ": conversion failed; included as placeholder.")) := by
  refine ⟨?_, ?_, ?_⟩
  · match path_in with
    | none => simp [to_pdf, toPdfMissing]
    | some p =>
      by_cases hcond : p = "" ∨ p ∉ fs
      · simp [to_pdf, toPdfMissing, hcond]
      · push_neg at hcond
        have h := to_pdf_emits sf p ext od pl he fs hcond.1 hcond.2
        constructor
        · intro hno
          rw [hno] at h
          exact absurd h.1 (by simp [ConvOut.pathOf])
        · intro hmiss
          simp [toPdfMissing, hcond.1, hcond.2] at hmiss
  · intro hmiss
    match path_in with
    | none => simp [toPdfMissing] at hmiss
    | some p =>
      simp only [toPdfMissing, decide_eq_false_iff_not] at hmiss
      push_neg at hmiss
      have h := to_pdf_emits sf p ext od pl he fs hmiss.1 hmiss.2
      exact ⟨_, h.1, by rw [h.2]; exact List.mem_cons_self _ _⟩
  · intro p hp hmiss hsf harm
    subst hp
    simp only [toPdfMissing, decide_eq_false_iff_not] at hmiss
    push_neg at hmiss
    have hcond : ¬(p = "" ∨ p ∉ fs) := by
      push_neg
      exact hmiss
    simp only [to_pdf]
    rw [if_neg hcond]
    subst hsf
    cases h : chooseStrategy (normExt ext) pl he <;> simp_all

/-- C3 witness: with a text file present and a failing LibreOffice strategy,
the dispatcher returns the failure placeholder for that file. -/
theorem spec_C3_witness :
    (to_pdf true (some "d/a.txt") "txt" "out" true false ["d/a.txt"]).1 =
      .placeholder "out/a.pdf" "a.txt: conversion failed; included as placeholder." := by
  have h := (spec_C3 true (some "d/a.txt") "txt" "out" true false ["d/a.txt"]).2.2
    "d/a.txt" rfl (by decide) rfl (by decide)
  rw [h]
  decide

/-- Retry helper: over any fuel and starting attempt, the tenacity driver
makes between 1 and `fuel` attempts, every attempt before the last raised a
retried transient HTTP status error, a response carrying an `errors` field
stops the call at that very attempt with a fatal outcome, and the sleeps
between attempts follow the exponential backoff sequence. -/
theorem runRetry_spec (f : Nat → GqlOutcome) :
    ∀ (fuel k : Nat), 0 < fuel →
      1 ≤ (runRetry f k fuel).1
      ∧ (runRetry f k fuel).1 ≤ fuel
      ∧ (∀ j, j + 1 < (runRetry f k fuel).1 → f (k + j) = .httpStatusError)
      ∧ (∀ j, j < (runRetry f k fuel).1 → f (k + j) = .errorsField →
          (runRetry f k fuel).2.2 = .fatal ∧ (runRetry f k fuel).1 = j + 1)
      ∧ (runRetry f k fuel).2.1
          = (List.range ((runRetry f k fuel).1 - 1)).map (fun i => backoffWait (k + i)) := by
  intro fuel
  induction fuel with
  | zero => intro k h; exact absurd h (by decide)
  | succ fuel ih =>
    intro k _
    cases hf : f k with
    | ok =>
      have hstep : runRetry f k (fuel + 1) = (1, [], .success) := by
        simp [runRetry, hf]
      rw [hstep]
      refine ⟨le_refl 1, by omega, ?_, ?_, by simp⟩
      · intro j hj
        omega
      · intro j hj hje
        interval_cases j
        rw [Nat.add_zero, hf] at hje
        exact absurd hje (by decide)
    | errorsField =>
      have hstep : runRetry f k (fuel + 1) = (1, [], .fatal) := by
        simp [runRetry, hf]
      rw [hstep]
      refine ⟨le_refl 1, by omega, ?_, ?_, by simp⟩
      · intro j hj
        omega
      · intro j hj hje
        interval_cases j
        exact ⟨rfl, rfl⟩
    | httpStatusError =>
      by_cases hfz : fuel = 0
      · subst hfz
        have hstep : runRetry f k (0 + 1) = (1, [], .exhausted) := by
          simp [runRetry, hf]
        rw [hstep]
        refine ⟨le_refl 1, by omega, ?_, ?_, by simp⟩
        · intro j hj
          omega
        · intro j hj hje
          interval_cases j
          rw [Nat.add_zero, hf] at hje
          exact absurd hje (by decide)
      · have hpos : 0 < fuel := Nat.pos_of_ne_zero hfz
        obtain ⟨ih1, ih2, ih3, ih4, ih5⟩ := ih (k + 1) hpos
        have hstep : runRetry f k (fuel + 1)
            = ((runRetry f (k + 1) fuel).1 + 1,
               backoffWait k :: (runRetry f (k + 1) fuel).2.1,
               (runRetry f (k + 1) fuel).2.2) := by
          simp [runRetry, hf, hfz]
        rw [hstep]
        refine ⟨by omega, by omega, ?_, ?_, ?_⟩
        · intro j hj
          match j with
          | 0 => simpa using hf
          | j0 + 1 =>
            have hk : k + (j0 + 1) = k + 1 + j0 := by omega
            rw [hk]
            exact ih3 j0 (by omega)
        · intro j hj hje
          match j with
          | 0 =>
            rw [Nat.add_zero, hf] at hje
            exact absurd hje (by decide)
          | j0 + 1 =>
            have hk : k + (j0 + 1) = k + 1 + j0 := by omega
            rw [hk] at hje
            have h4 := ih4 j0 (by omega) hje
            exact ⟨h4.1, by omega⟩
        · rw [Nat.add_sub_cancel]
          have hm : (runRetry f (k + 1) fuel).1 - 1 + 1 = (runRetry f (k + 1) fuel).1 := by
            omega
          conv_rhs => rw [← hm, List.range_succ_eq_map]
          rw [List.map_cons, List.map_map, ih5]
          refine congrArg₂ List.cons (by rw [Nat.add_zero]) ?_
          refine List.map_congr_left ?_
          intro i _
          exact congrArg backoffWait (by omega)

/-- C5: every retry-wrapped graphql call makes between 1 and 5 POST attempts;
every attempt before the last failed with a retried transient HTTP status
error; a structurally successful response carrying an `errors` field makes the
call fail fatally at that very attempt, with no further retry; and the sleeps
between attempts follow the exponential backoff sequence 1, 2, 4, 8. -/
theorem spec_C5 (f : Nat → GqlOutcome) :
    graphqlCalls f ≤ 5
    ∧ 1 ≤ graphqlCalls f
    ∧ (∀ k, k + 1 < graphqlCalls f → f k = .httpStatusError)
    ∧ (∀ k, k < graphqlCalls f → f k = .errorsField →
        graphqlResult f = .fatal ∧ graphqlCalls f = k + 1)
    ∧ graphqlWaits f = (List.range (graphqlCalls f - 1)).map backoffWait := by
  obtain ⟨hge, hle, htrans, hfatal, hwaits⟩ := runRetry_spec f 5 0 (by decide)
  simp only [graphqlCalls, graphqlResult, graphqlWaits]
  refine ⟨hle, hge, ?_, ?_, ?_⟩
  · intro k hk
    have := htrans k hk
    simpa using this
  · intro k hk hke
    exact hfatal k hk (by simpa using hke)
  · rw [hwaits]
    refine List.map_congr_left ?_
    intro i _
    rw [Nat.zero_add]

/-- C5 witness: a response with an `errors` field on the very first attempt
propagates fatally after exactly one POST. -/
theorem spec_C5_witness :
    graphqlResult (fun _ => GqlOutcome.errorsField) = .fatal
    ∧ graphqlCalls (fun _ => GqlOutcome.errorsField) = 1 := by
  have h := (spec_C5 (fun _ => GqlOutcome.errorsField)).2.2.2.1 0 (by decide) rfl
  simpa using h

/-- Index helper: sumRefs over a cons. -/
theorem sumRefs_cons (e : IndexEntry) (l : List IndexEntry) :
    sumRefs (e :: l) = e.refs.length + sumRefs l := by
  simp [sumRefs]

/-- Index helper: indexKeys over a cons. -/
theorem indexKeys_cons (e : IndexEntry) (l : List IndexEntry) :
    indexKeys (e :: l) = e.name :: indexKeys l := rfl

/-- Index helper: indexKeys is the name projection. -/
theorem indexKeys_eq (m : List IndexEntry) :
    indexKeys m = m.map IndexEntry.name := rfl

/-- Index helper: registering one reference grows the total reference count by
exactly one, whether or not the name was already present. -/
theorem addRef_sumRefs (itn : String) (a : Asset) :
    ∀ m : List IndexEntry, sumRefs (addRef itn a m) = sumRefs m + 1 := by
  intro m
  induction m with
  | nil => simp [addRef, sumRefs]
  | cons e rest ih =>
    simp only [addRef]
    by_cases h : e.name = a.name
    · rw [if_pos h, sumRefs_cons, sumRefs_cons]
      simp
      omega
    · rw [if_neg h, sumRefs_cons, sumRefs_cons, ih]
      omega

/-- Index helper: registering a reference leaves the key list unchanged when
the name is present and appends it at the end otherwise. -/
theorem addRef_keys (itn : String) (a : Asset) :
    ∀ m : List IndexEntry, indexKeys (addRef itn a m)
      = if a.name ∈ indexKeys m then indexKeys m else indexKeys m ++ [a.name] := by
  intro m
  induction m with
  | nil => simp [addRef, indexKeys]
  | cons e rest ih =>
    simp only [addRef]
    by_cases h : e.name = a.name
    · rw [if_pos h, indexKeys_cons, indexKeys_cons]
      rw [if_pos (by rw [← h]; exact List.mem_cons_self _ _)]
    · rw [if_neg h, indexKeys_cons, indexKeys_cons, ih]
      by_cases hm : a.name ∈ indexKeys rest
      · rw [if_pos hm, if_pos (List.mem_cons_of_mem _ hm)]
      · rw [if_neg hm, if_neg ?_, List.cons_append]
        intro hc
        rcases List.mem_cons.mp hc with heq | hmem
        · exact h heq.symm
        · exact hm hmem

/-- Index helper: key membership after registering a reference. -/
theorem mem_addRef_keys (itn : String) (a : Asset) (m : List IndexEntry)
    (n : String) :
    n ∈ indexKeys (addRef itn a m) ↔ n ∈ indexKeys m ∨ n = a.name := by
  rw [addRef_keys]
  by_cases hm : a.name ∈ indexKeys m
  · rw [if_pos hm]
    constructor
    · exact Or.inl
    · rintro (h | rfl)
      · exact h
      · exact hm
  · rw [if_neg hm]
    simp

/-- Index helper: registering a reference preserves key distinctness. -/
theorem addRef_keys_nodup (itn : String) (a : Asset) (m : List IndexEntry)
    (h : (indexKeys m).Nodup) : (indexKeys (addRef itn a m)).Nodup := by
  rw [addRef_keys]
  by_cases hm : a.name ∈ indexKeys m
  · rw [if_pos hm]
    exact h
  · rw [if_neg hm]
    simp [List.nodup_append, h, hm]

/-- Index helper: every entry after registering a reference either keeps the
name and canonical asset of an old entry, or is the fresh entry for the
registered asset. -/
theorem addRef_entry_cases (itn : String) (a : Asset) :
    ∀ (m : List IndexEntry) (e : IndexEntry), e ∈ addRef itn a m →
      (∃ e0 ∈ m, e.name = e0.name ∧ e.canonical = e0.canonical)
      ∨ (e.name = a.name ∧ e.canonical = a) := by
  intro m
  induction m with
  | nil =>
    intro e he
    simp [addRef] at he
    subst he
    exact Or.inr ⟨rfl, rfl⟩
  | cons e0 rest ih =>
    intro e he
    simp only [addRef] at he
    by_cases h : e0.name = a.name
    · rw [if_pos h] at he
      rcases List.mem_cons.mp he with rfl | hmem
      · exact Or.inl ⟨e0, List.mem_cons_self _ _, rfl, rfl⟩
      · exact Or.inl ⟨e, List.mem_cons_of_mem _ hmem, rfl, rfl⟩
    · rw [if_neg h] at he
      rcases List.mem_cons.mp he with rfl | hmem
      · exact Or.inl ⟨e, List.mem_cons_self _ _, rfl, rfl⟩
      · rcases ih e hmem with ⟨e1, he1, hn, hc⟩ | hr
        · exact Or.inl ⟨e1, List.mem_cons_of_mem _ he1, hn, hc⟩
        · exact Or.inr hr

/-- Index helper: folding the registrations of one item's assets adds exactly
one reference per asset. -/
theorem foldAdd_sumRefs (itn : String) :
    ∀ (as : List Asset) (m : List IndexEntry),
      sumRefs (as.foldl (fun m a => addRef itn a m) m) = sumRefs m + as.length := by
  intro as
  induction as with
  | nil => intro m; simp
  | cons a rest ih =>
    intro m
    simp only [List.foldl_cons, List.length_cons]
    rw [ih, addRef_sumRefs]
    omega

/-- Index helper: key membership after folding one item's registrations. -/
theorem foldAdd_mem_keys (itn : String) :
    ∀ (as : List Asset) (m : List IndexEntry) (n : String),
      n ∈ indexKeys (as.foldl (fun m a => addRef itn a m) m)
        ↔ n ∈ indexKeys m ∨ n ∈ as.map Asset.name := by
  intro as
  induction as with
  | nil => intro m n; simp
  | cons a rest ih =>
    intro m n
    simp only [List.foldl_cons, List.map_cons, List.mem_cons]
    rw [ih, mem_addRef_keys]
    tauto

/-- Index helper: folding one item's registrations preserves key
distinctness. -/
theorem foldAdd_nodup (itn : String) :
    ∀ (as : List Asset) (m : List IndexEntry),
      (indexKeys m).Nodup →
      (indexKeys (as.foldl (fun m a => addRef itn a m) m)).Nodup := by
  intro as
  induction as with
  | nil => intro m h; exact h
  | cons a rest ih =>
    intro m h
    simp only [List.foldl_cons]
    exact ih _ (addRef_keys_nodup itn a m h)

/-- Index helper: the canonical-asset invariant survives folding one item's
registrations, for any name property enjoyed by every registered asset. -/
theorem foldAdd_inv (itn : String) (Q : String → Prop) :
    ∀ (as : List Asset) (m : List IndexEntry),
      (∀ e ∈ m, e.canonical.name = e.name ∧ Q e.name) →
      (∀ a ∈ as, Q a.name) →
      ∀ e ∈ as.foldl (fun m a => addRef itn a m) m,
        e.canonical.name = e.name ∧ Q e.name := by
  intro as
  induction as with
  | nil => intro m hm _ e he; exact hm e he
  | cons a rest ih =>
    intro m hm has
    simp only [List.foldl_cons]
    apply ih
    · intro e he
      rcases addRef_entry_cases itn a m e he with ⟨e0, he0, hn, hc⟩ | ⟨hn, hc⟩
      · obtain ⟨h1, h2⟩ := hm e0 he0
        refine ⟨?_, by rw [hn]; exact h2⟩
        rw [hc, h1, hn]
      · refine ⟨?_, by rw [hn]; exact has a (List.mem_cons_self _ _)⟩
        rw [hc, hn]
    · intro a2 ha2
      exact has a2 (List.mem_cons_of_mem _ ha2)

/-- Index helper: allRefNames over a cons of items. -/
theorem allRefNames_cons (it : ItemRec) (items : List ItemRec) :
    allRefNames (it :: items)
      = (dedupe_assets it.assets).map Asset.name ++ allRefNames items := by
  simp [allRefNames]

/-- Index helper: total reference count over the items fold. -/
theorem buildAux_sumRefs :
    ∀ (items : List ItemRec) (m : List IndexEntry),
      sumRefs (items.foldl addItemAssets m)
        = sumRefs m + (items.map (fun it => (dedupe_assets it.assets).length)).sum := by
  intro items
  induction items with
  | nil => intro m; simp
  | cons it rest ih =>
    intro m
    simp only [List.foldl_cons, List.map_cons, List.sum_cons]
    rw [ih]
    unfold addItemAssets
    rw [foldAdd_sumRefs]
    omega

/-- Index helper: key membership over the items fold. -/
theorem buildAux_mem_keys :
    ∀ (items : List ItemRec) (m : List IndexEntry) (n : String),
      n ∈ indexKeys (items.foldl addItemAssets m)
        ↔ n ∈ indexKeys m ∨ n ∈ allRefNames items := by
  intro items
  induction items with
  | nil => intro m n; simp [allRefNames]
  | cons it rest ih =>
    intro m n
    simp only [List.foldl_cons, allRefNames_cons, List.mem_append]
    rw [ih]
    unfold addItemAssets
    rw [foldAdd_mem_keys]
    tauto

/-- Index helper: key distinctness over the items fold. -/
theorem buildAux_nodup :
    ∀ (items : List ItemRec) (m : List IndexEntry),
      (indexKeys m).Nodup → (indexKeys (items.foldl addItemAssets m)).Nodup := by
  intro items
  induction items with
  | nil => intro m h; exact h
  | cons it rest ih =>
    intro m h
    simp only [List.foldl_cons]
    exact ih _ (foldAdd_nodup it.name _ m h)

/-- Index helper: over the items fold, every entry's canonical asset carries
the entry's key name, and that name occurs among the deduplicated assets of
some item of the ambient list. -/
theorem buildAux_inv (L : List ItemRec) :
    ∀ (items : List ItemRec) (m : List IndexEntry),
      (∀ it ∈ items, it ∈ L) →
      (∀ e ∈ m, e.canonical.name = e.name ∧
        ∃ it ∈ L, ∃ b ∈ dedupe_assets it.assets, b.name = e.name) →
      ∀ e ∈ items.foldl addItemAssets m,
        e.canonical.name = e.name ∧
        ∃ it ∈ L, ∃ b ∈ dedupe_assets it.assets, b.name = e.name := by
  intro items
  induction items with
  | nil => intro m _ hm e he; exact hm e he
  | cons it rest ih =>
    intro m hsub hm
    simp only [List.foldl_cons]
    apply ih
    · intro it2 hit2
      exact hsub it2 (List.mem_cons_of_mem _ hit2)
    · unfold addItemAssets
      apply foldAdd_inv it.name
        (fun n => ∃ it ∈ L, ∃ b ∈ dedupe_assets it.assets, b.name = n) _ m hm
      intro a ha
      exact ⟨it, hsub it (List.mem_cons_self _ _), a, ha, rfl⟩

/-- Index helper: the keys of the built attachment index are distinct. -/
theorem buildIndex_keys_nodup (items : List ItemRec) :
    (indexKeys (buildIndex items)).Nodup :=
  buildAux_nodup items [] (by simp [indexKeys])

/-- Index helper: the built index has a key exactly for the names referenced
by the deduplicated items. -/
theorem mem_buildIndex_keys (items : List ItemRec) (n : String) :
    n ∈ indexKeys (buildIndex items) ↔ n ∈ allRefNames items := by
  have h := buildAux_mem_keys items [] n
  simpa [indexKeys] using h

/-- Index helper: the total reference count of the built index. -/
theorem buildIndex_sumRefs (items : List ItemRec) :
    sumRefs (buildIndex items)
      = (items.map (fun it => (dedupe_assets it.assets).length)).sum := by
  have h := buildAux_sumRefs items []
  simpa [sumRefs] using h

/-- Index helper: each entry of the built index stores a canonical asset named
after its key, a name present among some item's deduplicated assets. -/
theorem buildIndex_canonical (items : List ItemRec) :
    ∀ e ∈ buildIndex items,
      e.canonical.name = e.name
      ∧ ∃ it ∈ items, ∃ b ∈ dedupe_assets it.assets, b.name = e.name :=
  buildAux_inv items items [] (fun _ h => h) (by simp)

/-- Index helper: the index size is the number of distinct referenced names. -/
theorem buildIndex_length (items : List ItemRec) :
    (buildIndex items).length = (allRefNames items).dedup.length := by
  have hkey : (buildIndex items).length = (indexKeys (buildIndex items)).length := by
    rw [indexKeys_eq, List.length_map]
  rw [hkey]
  have hnd := buildIndex_keys_nodup items
  have hfin : (indexKeys (buildIndex items)).toFinset = (allRefNames items).toFinset := by
    ext x
    simp only [List.mem_toFinset]
    exact mem_buildIndex_keys items x
  calc (indexKeys (buildIndex items)).length
      = (indexKeys (buildIndex items)).toFinset.card :=
        (List.toFinset_card_of_nodup hnd).symm
    _ = (allRefNames items).toFinset.card := by rw [hfin]
    _ = (allRefNames items).dedup.length := List.card_toFinset _

/-- Index helper: the reference-name list has one element per deduplicated
asset. -/
theorem allRefNames_length (items : List ItemRec) :
    (allRefNames items).length
      = (items.map (fun it => (dedupe_assets it.assets).length)).sum := by
  unfold allRefNames
  rw [List.length_flatten, List.map_map]
  refine congrArg List.sum ?_
  refine List.map_congr_left ?_
  intro it _
  simp [Function.comp]

/-- Dedupe helper: every asset of the input list leaves a representative with
its id and name in the deduplicated output (or its key was already seen). -/
theorem dedupeGo_names (a : Asset) :
    ∀ (assets : List Asset) (seen : List (String × String)), a ∈ assets →
      (a.id, a.name) ∈ seen
      ∨ ∃ b ∈ dedupeGo seen assets, b.id = a.id ∧ b.name = a.name := by
  intro assets
  induction assets with
  | nil => intro seen h; cases h
  | cons h0 rest ih =>
    intro seen hmem
    simp only [dedupeGo]
    by_cases hk : (h0.id, h0.name) ∈ seen
    · rw [if_pos hk]
      rcases List.mem_cons.mp hmem with rfl | hr
      · exact Or.inl hk
      · exact ih seen hr
    · rw [if_neg hk]
      rcases List.mem_cons.mp hmem with rfl | hr
      · exact Or.inr ⟨a, List.mem_cons_self _ _, rfl, rfl⟩
      · rcases ih ((h0.id, h0.name) :: seen) hr with hs | ⟨b, hb, hid, hn⟩
        · rcases List.mem_cons.mp hs with heq | hs2
          · have h1 : a.id = h0.id := congrArg Prod.fst heq
            have h2 : a.name = h0.name := congrArg Prod.snd heq
            exact Or.inr ⟨h0, List.mem_cons_self _ _, h1.symm, h2.symm⟩
          · exact Or.inl hs2
        · exact Or.inr ⟨b, List.mem_cons_of_mem _ hb, hid, hn⟩

/-- Dedupe helper: every asset's name survives intra-item deduplication. -/
theorem dedupe_assets_names (assets : List Asset) (a : Asset) (ha : a ∈ assets) :
    ∃ b ∈ dedupe_assets assets, b.name = a.name := by
  rcases dedupeGo_names a assets [] ha with h | ⟨b, hb, _, hn⟩
  · cases h
  · exact ⟨b, hb, hn⟩

/-- Index helper: every referenced name is the key of exactly one entry. -/
theorem buildIndex_unique_entry (items : List ItemRec) (n : String)
    (hn : n ∈ allRefNames items) :
    ∃! e, e ∈ buildIndex items ∧ e.name = n := by
  have hmem := (mem_buildIndex_keys items n).mpr hn
  rw [indexKeys_eq] at hmem
  obtain ⟨e, he, hen⟩ := List.mem_map.mp hmem
  refine ⟨e, ⟨he, hen⟩, ?_⟩
  intro y hy
  have hnd := buildIndex_keys_nodup items
  rw [indexKeys_eq] at hnd
  exact List.inj_on_of_nodup_map hnd hy.1 he (by rw [hy.2, hen])

/-- C2: over any filtered item list, the attachment index satisfies: the sum
of reference-list lengths equals the total number of attachment references
after intra-item deduplication by (identifier, name); the number of entries
equals the number of distinct attachment names; and every attachment of any
item's attachment list is accounted for by exactly one index entry. -/
theorem spec_C2 (items : List ItemRec) :
    sumRefs (buildIndex items)
        = (items.map (fun it => (dedupe_assets it.assets).length)).sum
    ∧ (buildIndex items).length = (allRefNames items).dedup.length
    ∧ ∀ it ∈ items, ∀ a ∈ it.assets,
        ∃! e, e ∈ buildIndex items ∧ e.name = a.name := by
  refine ⟨buildIndex_sumRefs items, buildIndex_length items, ?_⟩
  intro it hit a ha
  apply buildIndex_unique_entry
  obtain ⟨b, hb, hbn⟩ := dedupe_assets_names it.assets a ha
  unfold allRefNames
  rw [List.mem_flatten]
  refine ⟨(dedupe_assets it.assets).map Asset.name, List.mem_map_of_mem _ hit, ?_⟩
  rw [← hbn]
  exact List.mem_map_of_mem _ hb

/-- C2 witness: in the section-8 scenario the index carries 3 references in
total and exactly one entry is keyed "report.pdf". -/
theorem spec_C2_witness :
    sumRefs (buildIndex exItems) = 3
    ∧ ∃! e, e ∈ buildIndex exItems ∧ e.name = "report.pdf" := by
  constructor
  · rw [(spec_C2 exItems).1]
    decide
  · have h := (spec_C2 exItems).2.2 exItemA (by decide) exReport (by decide)
    simpa [exReport] using h

/-- C6: the number of unique attachment names in the index is at most the
total number of (intra-item-deduplicated) attachment references across the
filtered items, with equality exactly when no attachment name repeats across
the combined reference list. -/
theorem spec_C6 (items : List ItemRec) :
    (buildIndex items).length
        ≤ (items.map (fun it => (dedupe_assets it.assets).length)).sum
    ∧ ((buildIndex items).length
          = (items.map (fun it => (dedupe_assets it.assets).length)).sum
        ↔ (allRefNames items).Nodup) := by
  have hlen := buildIndex_length items
  have htot := allRefNames_length items
  constructor
  · rw [hlen, ← htot]
    exact (List.dedup_sublist _).length_le
  · rw [hlen, ← htot]
    constructor
    · intro h
      have heq : (allRefNames items).dedup = allRefNames items :=
        (List.dedup_sublist _).eq_of_length h
      exact heq ▸ List.nodup_dedup (allRefNames items)
    · intro h
      rw [List.dedup_eq_self.mpr h]

/-- Path helper: a download destination is never the empty string. -/
theorem destPath_ne_empty (a : Asset) (d : String) : destPath a d ≠ "" := by
  intro h
  have hd : (destPath a d).data = [] := by rw [h]
  unfold destPath destFilename at hd
  have h2 : ("/" : String).data = ['/'] := rfl
  simp only [String.data_append, List.append_eq_nil, h2] at hd
  exact absurd hd.1.2 (by decide)

/-- Download helper: with the network up, download_asset always returns the
destination path, and that path exists afterwards. -/
theorem download_asset_ok (a : Asset) (d : String) (fs : List String) :
    (download_asset a d true fs).1 = some (destPath a d)
    ∧ destPath a d ∈ (download_asset a d true fs).2.1 := by
  unfold download_asset
  by_cases h : destPath a d ∈ fs
  · simp [h]
  · simp [h]

/-- Loop helper: one iteration of the unique-attachment loop appends exactly
one pdf path whenever a referencing ticket exists and the download succeeds,
whatever the conversion strategy does. -/
theorem processOne_success (rows : List TicketRow) (dd month : String)
    (netOk stratFails : Asset → Bool) (st : PState) (a : Asset) (t : TicketRow)
    (hft : firstTicketFor rows a = some t) (hok : netOk a = true) :
    ∃ st2, processOne rows dd month netOk stratFails st a = some st2
      ∧ st2.pdfs.length = st.pdfs.length + 1 := by
  have hdl := download_asset_ok a (dd ++ "/" ++ month ++ "/" ++ t.item_id) st.fs
  have hemits := to_pdf_emits (stratFails a)
    (destPath a (dd ++ "/" ++ month ++ "/" ++ t.item_id)) a.file_extension
    (dd ++ "/" ++ month ++ "/" ++ t.item_id ++ "/" ++ "converted") true false
    (download_asset a (dd ++ "/" ++ month ++ "/" ++ t.item_id) true st.fs).2.1
    (destPath_ne_empty a _) hdl.2
  refine ⟨⟨st.pdfs ++
      [dd ++ "/" ++ month ++ "/" ++ t.item_id ++ "/" ++ "converted" ++ "/" ++
        splitextStem (basenameStr (destPath a (dd ++ "/" ++ month ++ "/" ++ t.item_id)))
        ++ ".pdf"],
      (dd ++ "/" ++ month ++ "/" ++ t.item_id ++ "/" ++ "converted" ++ "/" ++
        splitextStem (basenameStr (destPath a (dd ++ "/" ++ month ++ "/" ++ t.item_id)))
        ++ ".pdf")
        :: (download_asset a (dd ++ "/" ++ month ++ "/" ++ t.item_id) true st.fs).2.1,
      st.netReqs + (download_asset a (dd ++ "/" ++ month ++ "/" ++ t.item_id) true st.fs).2.2,
      st.convCalls + 1⟩, ?_, by simp⟩
  simp only [processOne, hft, hok, hdl.1, hemits.1, hemits.2]
  rw [if_pos (List.mem_cons_self _ _)]

/-- Loop helper: when every asset of the worklist has a referencing ticket and
its download succeeds, the loop completes and collects exactly one pdf per
asset. -/
theorem processAssets_success (rows : List TicketRow) (dd month : String)
    (netOk stratFails : Asset → Bool) :
    ∀ (as : List Asset) (st : PState),
      (∀ a ∈ as, (firstTicketFor rows a).isSome = true) →
      (∀ a ∈ as, netOk a = true) →
      ∃ stF, processAssets rows dd month netOk stratFails as st = some stF
        ∧ stF.pdfs.length = st.pdfs.length + as.length := by
  intro as
  induction as with
  | nil => intro st _ _; exact ⟨st, rfl, by simp⟩
  | cons a rest ih =>
    intro st hft hok
    obtain ⟨t, ht⟩ := Option.isSome_iff_exists.mp (hft a (List.mem_cons_self _ _))
    obtain ⟨st2, h2, hlen2⟩ := processOne_success rows dd month netOk stratFails
      st a t ht (hok a (List.mem_cons_self _ _))
    obtain ⟨stF, hF, hlenF⟩ := ih st2
      (fun a2 h => hft a2 (List.mem_cons_of_mem _ h))
      (fun a2 h => hok a2 (List.mem_cons_of_mem _ h))
    refine ⟨stF, ?_, ?_⟩
    · simp only [processAssets, h2]
      exact hF
    · rw [hlenF, hlen2, List.length_cons]
      omega

/-- Loop helper: every canonical asset of the built index has a referencing
ticket row, so the `first_ticket` lookup of src/main.py line 181 never hits an
empty list when fed the index built over the same items. -/
theorem buildIndex_first_ticket (cols : BoardCols) (items : List ItemRec) :
    ∀ e ∈ buildIndex items,
      (firstTicketFor (ticket_rows cols items) e.canonical).isSome = true := by
  intro e he
  obtain ⟨hcn, it, hit, b, hb, hbn⟩ := buildIndex_canonical items e he
  apply List.find?_isSome.mpr
  refine ⟨{ item_id := it.id, item_name := it.name,
            open_date := (extractOpenClose cols it.column_values).1.getD "",
            close_date := (extractOpenClose cols it.column_values).2,
            attachments := dedupe_assets it.assets }, ?_, ?_⟩
  · exact List.mem_map_of_mem _ hit
  · simp only [List.any_eq_true]
    refine ⟨b, hb, ?_⟩
    rw [hbn, hcn]
    simp

/-- C1: over any item list, when every download succeeds the unique-attachment
loop completes and produces exactly one converted document per index entry —
one per unique attachment name, never one per referencing item — for every
assignment of conversion failures (each failed conversion contributing its
placeholder path instead of aborting). -/
theorem spec_C1 (cols : BoardCols) (items : List ItemRec) (dd month : String)
    (netOk stratFails : Asset → Bool) (st : PState)
    (hnet : ∀ a, netOk a = true) :
    ∃ stF, processAssets (ticket_rows cols items) dd month netOk stratFails
        (unique_attachments (buildIndex items)) st = some stF
      ∧ stF.pdfs.length = st.pdfs.length + (buildIndex items).length := by
  have hlen : (unique_attachments (buildIndex items)).length
      = (buildIndex items).length := List.length_map _ _
  have hfind : ∀ a ∈ unique_attachments (buildIndex items),
      (firstTicketFor (ticket_rows cols items) a).isSome = true := by
    intro a ha
    simp only [unique_attachments] at ha
    obtain ⟨e, he, rfl⟩ := List.mem_map.mp ha
    exact buildIndex_first_ticket cols items e he
  obtain ⟨stF, h1, h2⟩ := processAssets_success (ticket_rows cols items) dd month
    netOk stratFails (unique_attachments (buildIndex items)) st hfind
    (fun a _ => hnet a)
  exact ⟨stF, h1, by rw [h2, hlen]⟩

/-- C1 witness: in the section-8 scenario (report.pdf shared by items A and C,
photo.jpg on item B) with every conversion failing, the loop still completes
with exactly 2 pdfs, not 3. -/
theorem spec_C1_witness :
    ∃ stF, processAssets exRows "dl" "2024-06" (fun _ => true) (fun _ => true)
        (unique_attachments exIndex) ⟨[], [], 0, 0⟩ = some stF
      ∧ stF.pdfs.length = 2 := by
  obtain ⟨stF, h1, h2⟩ := spec_C1 exCols exItems "dl" "2024-06" (fun _ => true)
    (fun _ => true) ⟨[], [], 0, 0⟩ (fun _ => rfl)
  refine ⟨stF, h1, ?_⟩
  rw [h2]
  decide

/-- C9: download_asset is total: it returns nothing exactly when the file is
absent and the network request or write fails, in which case the filesystem is
untouched; any returned path is the destination path; and an attachment whose
download fails is skipped by the conversion loop — one network request, no
conversion call, no pdf appended, no placeholder. -/
theorem spec_C9 (a : Asset) (d : String) (ok : Bool) (fs : List String)
    (rows : List TicketRow) (dd month : String) (netOk stratFails : Asset → Bool)
    (st : PState) (t : TicketRow) :
    ((download_asset a d ok fs).1 = none ↔ destPath a d ∉ fs ∧ ok = false)
    ∧ ((download_asset a d ok fs).1 = none → (download_asset a d ok fs).2.1 = fs)
    ∧ (∀ q, (download_asset a d ok fs).1 = some q → q = destPath a d)
    ∧ (firstTicketFor rows a = some t → netOk a = false →
        destPath a (dd ++ "/" ++ month ++ "/" ++ t.item_id) ∉ st.fs →
        processOne rows dd month netOk stratFails st a =
          some { st with netReqs := st.netReqs + 1 }) := by
  refine ⟨?_, ?_, ?_, ?_⟩
  · unfold download_asset
    by_cases h : destPath a d ∈ fs
    · simp [h]
    · cases ok <;> simp [h]
  · intro hnone
    unfold download_asset at hnone ⊢
    by_cases h : destPath a d ∈ fs
    · simp [h] at hnone
    · cases ok <;> simp [h] at hnone ⊢
  · intro q hq
    unfold download_asset at hq
    by_cases h : destPath a d ∈ fs
    · simp [h] at hq
      exact hq.symm
    · cases ok <;> simp [h] at hq
      exact hq.symm
  · intro hft hnok hmem
    have hdl : download_asset a (dd ++ "/" ++ month ++ "/" ++ t.item_id)
        (netOk a) st.fs = (none, st.fs, 1) := by
      rw [hnok]
      unfold download_asset
      rw [if_neg hmem]
      rfl
    simp only [processOne, hft, hdl]

/-- C9 witness: with the network down and nothing pre-downloaded, processing
photo.jpg issues one request, converts nothing and appends no pdf. -/
theorem spec_C9_witness :
    processOne exRows "dl" "2024-06" (fun _ => false) (fun _ => false)
      ⟨[], [], 0, 0⟩ exPhoto = some ⟨[], [], 1, 0⟩ := by
  have h := (spec_C9 exPhoto "x" false [] exRows "dl" "2024-06" (fun _ => false)
    (fun _ => false) ⟨[], [], 0, 0⟩ ⟨"2", "B", "2024-06-10", none, [exPhoto]⟩).2.2.2
    (by decide) rfl (by decide)
  simpa using h

/-- C8: a dry run performs the filtering over the retrieved items and the
verification pass, but attempts no download, calls the converter zero times,
and writes no file at all — no report, no summary, no workbook. -/
theorem spec_C8 (maxItems : Option Nat) (cols : BoardCols)
    (month req outDir dd : String) (netOk stratFails : Asset → Bool)
    (items : List ItemRec) :
    runMain true maxItems cols month req outDir dd netOk stratFails items =
      some { filtered := filtered_items true maxItems cols month req items,
             index := buildIndex (filtered_items true maxItems cols month req items),
             downloadsAttempted := 0, conversionsCalled := 0,
             filesWritten := [], verified := true } := rfl
